import Mathlib

/-!
Verification of the VMT dataset conversion & augmentation engine (src/app.py).

Shallow embedding conventions:
* Python floats are modelled as exact rationals (ℚ); machine pixel counts as ℕ.
* Python exceptions are modelled as `Option`/`Except` results: `none`/`.error`
  means the corresponding Python code raises.
* Filesystem and image-library effects are modelled as explicit inputs
  (environment records, transform parameters) and outputs (lists of file
  names / label lines).
-/

namespace VMT

/-! ### Labels (src/app.py lines 267-313: parse_yolo_label, save_yolo_label,
polygon_to_bbox_norm, reconstruct_polygons_from_keypoints) -/

/-- One parsed YOLO label line, mirroring the Python dict
`{"class": cls, "bbox": ..., "poly": ...}` built by `parse_yolo_label`. -/
structure Lab where
  cls : ℤ
  bbox : Option (ℚ × ℚ × ℚ × ℚ)
  poly : Option (List (ℚ × ℚ))
deriving DecidableEq

/-- `[(coords[i], coords[i+1]) for i in range(0, len(coords), 2)]` for an
even-length list; a trailing odd element is never consumed (the Python
comprehension raises `IndexError` before that, handled in `parse_yolo_label`). -/
def pairUp : List ℚ → List (ℚ × ℚ)
  | x :: y :: rest => (x, y) :: pairUp rest
  | _ => []

/-- `parse_yolo_label` (lines 267-274), on a line already tokenized into a
class integer and float coordinates.  Exactly 4 floats give a bbox dict;
otherwise the pair comprehension runs: with an odd float count it raises
`IndexError` (modelled `none`), with any even count it returns a polygon. -/
def parse_yolo_label (cls : ℤ) (coords : List ℚ) : Option Lab :=
  match coords with
  | [a, b, c, d] => some ⟨cls, some (a, b, c, d), none⟩
  | _ =>
    if coords.length % 2 = 1 then none
    else some ⟨cls, none, some (pairUp coords)⟩

/-- Fixed 6-decimal formatting `f"{q:.6f}"` of one float, as the rational it
denotes. -/
def fmt6 (q : ℚ) : ℚ := (round (q * 1000000) : ℤ) / 1000000

/-- The line `save_yolo_label` (lines 277-286) writes for one label:
class token plus the formatted numeric fields.  A label with neither bbox
nor poly writes nothing. -/
def labelLine (lab : Lab) : Option (ℤ × List ℚ) :=
  match lab.bbox with
  | some (cx, cy, w, h) => some (lab.cls, [fmt6 cx, fmt6 cy, fmt6 w, fmt6 h])
  | none =>
    match lab.poly with
    | some pts => some (lab.cls, pts.flatMap (fun p => [fmt6 p.1, fmt6 p.2]))
    | none => none

/-- `save_yolo_label` (lines 277-286): one output line per label, in the
order of the given list. -/
def save_yolo_label (labs : List Lab) : List (ℤ × List ℚ) :=
  labs.filterMap labelLine

/-- `min` over a Python sequence: raises (`none`) on an empty one. -/
def qmin : List ℚ → Option ℚ
  | [] => none
  | x :: xs => some (xs.foldl min x)

/-- `max` over a Python sequence: raises (`none`) on an empty one. -/
def qmax : List ℚ → Option ℚ
  | [] => none
  | x :: xs => some (xs.foldl max x)

/-- `polygon_to_bbox_norm` (lines 300-313): min/max extent of the pixel
points, normalized by the image dimensions.  Python's `min()`/`max()` raise
on an empty point list (modelled `none`). -/
def polygon_to_bbox_norm (pts : List (ℚ × ℚ)) (w h : ℕ) : Option (ℚ × ℚ × ℚ × ℚ) :=
  match qmin (pts.map Prod.fst), qmax (pts.map Prod.fst),
        qmin (pts.map Prod.snd), qmax (pts.map Prod.snd) with
  | some x1, some x2, some y1, some y2 =>
    some (((x1 + x2) / 2) / (w : ℚ), ((y1 + y2) / 2) / (h : ℚ),
          (x2 - x1) / (w : ℚ), (y2 - y1) / (h : ℚ))
  | _, _, _, _ => none

/-- `reconstruct_polygons_from_keypoints` (lines 289-297): slice each
polygon's vertex range back out of the flat keypoint list. -/
def reconstruct_polygons_from_keypoints (kps : List (ℚ × ℚ))
    (poly_splits : List (ℤ × ℕ × ℕ)) : List (ℤ × List (ℚ × ℚ)) :=
  poly_splits.map (fun s => (s.1, (kps.drop s.2.1).take s.2.2))

/-! ### Augmentation label paths
(src/app.py lines 444-465 geometry pre-pass, 493-542 geometric path,
563-601 photometric path, inside augment_dataset_noninteractive) -/

/-- `map` for an exception-propagating Python loop: `none` as soon as the
body raises at some element. -/
def mapO (f : α → Option β) : List α → Option (List β)
  | [] => some []
  | x :: xs =>
    match f x, mapO f xs with
    | some y, some ys => some (y :: ys)
    | _, _ => none

/-- Denormalize a `(cx, cy, w, h)` bbox to pascal-voc pixel corners
`(x1, y1, x2, y2)` (lines 451-457). -/
def denormBbox (w h : ℕ) (b : ℚ × ℚ × ℚ × ℚ) : ℚ × ℚ × ℚ × ℚ :=
  ((b.1 - b.2.2.1 / 2) * (w : ℚ), (b.2.1 - b.2.2.2 / 2) * (h : ℚ),
   (b.1 + b.2.2.1 / 2) * (w : ℚ), (b.2.1 + b.2.2.2 / 2) * (h : ℚ))

/-- Turn pixel corners back into a normalized `(cx, cy, w, h)` bbox
(lines 497-501 and 565-569). -/
def bboxFromCorners (w h : ℕ) (r : ℚ × ℚ × ℚ × ℚ) : ℚ × ℚ × ℚ × ℚ :=
  (((r.1 + r.2.2.1) / 2) / (w : ℚ), ((r.2.1 + r.2.2.2) / 2) / (h : ℚ),
   (r.2.2.1 - r.1) / (w : ℚ), (r.2.2.2 - r.2.1) / (h : ℚ))

/-- `max(min(q, 1.0), 0.0)` (lines 516-519). -/
def clamp01 (q : ℚ) : ℚ := max (min q 1) 0

/-- Bbox-derived output label of the augmentation paths (lines 494-508 and
564-576): corners renormalized against the output image dimensions. -/
def mkBboxLab (w h : ℕ) (bc : (ℚ × ℚ × ℚ × ℚ) × ℤ) : Lab :=
  ⟨bc.2, some (bboxFromCorners w h bc.1), none⟩

/-- Geometric-path output label for one reconstructed polygon
(lines 514-542): clamp each normalized vertex; keep as polygon when at
least 3 vertices, else fall back to a bbox over the clamped, re-scaled
points.  `none` models the `ValueError` of `min()` on an empty polygon. -/
def geoPolyEntry (w h : ℕ) (cls : ℤ) (pts : List (ℚ × ℚ)) : Option Lab :=
  let norm := pts.map (fun p => (clamp01 (p.1 / (w : ℚ)), clamp01 (p.2 / (h : ℚ))))
  if 3 ≤ norm.length then some ⟨cls, none, some norm⟩
  else
    match polygon_to_bbox_norm (norm.map (fun p => (p.1 * (w : ℚ), p.2 * (h : ℚ)))) w h with
    | some bb => some ⟨cls, some bb, none⟩
    | none => none

/-- Geometric-path label list (lines 493-542): bbox labels from the
library-transformed boxes, then polygon labels reconstructed from the
transformed keypoints.  `w, h` are the transformed image dimensions,
`tbboxes` the transformed `(pascal_voc box, class)` pairs, `tkps` the
transformed flat keypoint list. -/
def geoNewLabels (w h : ℕ) (tbboxes : List ((ℚ × ℚ × ℚ × ℚ) × ℤ))
    (tkps : List (ℚ × ℚ)) (poly_splits : List (ℤ × ℕ × ℕ)) : Option (List Lab) :=
  match mapO (fun cp => geoPolyEntry w h cp.1 cp.2)
      (reconstruct_polygons_from_keypoints tkps poly_splits) with
  | some polyLabs => some (tbboxes.map (mkBboxLab w h) ++ polyLabs)
  | none => none

/-- Photometric-path output label for one polygon slice (lines 578-597):
vertices renormalized without clamping; fewer than 3 vertices fall back to
a bbox over the raw pixel points. -/
def photoPolyEntry (w h : ℕ) (cls : ℤ) (pts : List (ℚ × ℚ)) : Option Lab :=
  let norm := pts.map (fun p => (p.1 / (w : ℚ), p.2 / (h : ℚ)))
  if 3 ≤ norm.length then some ⟨cls, none, some norm⟩
  else
    match polygon_to_bbox_norm pts w h with
    | some bb => some ⟨cls, some bb, none⟩
    | none => none

/-- Photometric-path label list (lines 563-601): the untransformed pixel
boxes and keypoints renormalized against the output image dimensions. -/
def photoNewLabels (w h : ℕ) (bboxes : List ((ℚ × ℚ × ℚ × ℚ) × ℤ))
    (kps : List (ℚ × ℚ)) (poly_splits : List (ℤ × ℕ × ℕ)) : Option (List Lab) :=
  match mapO (fun s => photoPolyEntry w h s.1 ((kps.drop s.2.1).take s.2.2))
      poly_splits with
  | some polyLabs => some (bboxes.map (mkBboxLab w h) ++ polyLabs)
  | none => none

/-- One iteration of the geometry pre-pass loop (lines 450-465): a bbox
label appends a denormalized pascal-voc box; a polygon label appends its
scaled vertices to the flat keypoint list and records a
`(class, start, length)` split; the `elif` skips a label with neither. -/
def geomStep (w h : ℕ)
    (acc : List ((ℚ × ℚ × ℚ × ℚ) × ℤ) × List (ℚ × ℚ) × List (ℤ × ℕ × ℕ))
    (lab : Lab) :
    List ((ℚ × ℚ × ℚ × ℚ) × ℤ) × List (ℚ × ℚ) × List (ℤ × ℕ × ℕ) :=
  match lab.bbox with
  | some b => (acc.1 ++ [(denormBbox w h b, lab.cls)], acc.2.1, acc.2.2)
  | none =>
    match lab.poly with
    | some pts =>
      let absPts := pts.map (fun p => (p.1 * (w : ℚ), p.2 * (h : ℚ)))
      (acc.1, acc.2.1 ++ absPts, acc.2.2 ++ [(lab.cls, acc.2.1.length, absPts.length)])
    | none => acc

/-- Geometry pre-pass (lines 444-465): separate the parsed labels into
pixel-space pascal-voc boxes, a flat keypoint list, and per-polygon
`(class, start, length)` splits, accumulated in label order. -/
def buildGeometry (w h : ℕ) (labs : List Lab) :
    List ((ℚ × ℚ × ℚ × ℚ) × ℤ) × List (ℚ × ℚ) × List (ℤ × ℕ × ℕ) :=
  labs.foldl (geomStep w h) ([], [], [])

/-! ### Augmentation catalog and per-image orchestration
(src/app.py lines 345-402 catalog, 426-602 per-image loop) -/

/-- The nine hand-listed geometric entries (lines 345-355). -/
def base_geo_names : List String :=
  ["hflip", "vflip", "rot90", "rot180", "rot270",
   "shear_x15", "shear_x-15", "shear_y15", "shear_y-15"]

/-- `fine_rotations` names, `range(12, 360, 12)` (lines 357-359). -/
def fine_rotation_names : List String :=
  (List.range' 12 29 12).map (fun i => "rot" ++ toString i)

/-- `zoom_outs` names, `range(90, 30, -10)` (lines 361-364). -/
def zoom_out_names : List String :=
  ((List.range' 40 6 10).reverse).map (fun s => "zoom_" ++ toString s)

/-- All geometric entry names after `geo_augs = geo_augs + fine_rotations +
zoom_outs` (line 366). -/
def geo_aug_names : List String :=
  base_geo_names ++ fine_rotation_names ++ zoom_out_names

/-- Photometric entry names (lines 368-395). -/
def photo_aug_names : List String :=
  ["brightness_contrast", "hsv_shift", "rgb_shift", "clahe", "gamma",
   "motion_blur", "gauss_noise", "low_light", "overexposed",
   "reflection_reduce", "low_res"]

/-- Interface model of one geometric library transform (`A.Compose` with
bbox and keypoint params, lines 470-488): the library returns a transformed
box list (possibly clipped or filtered, with its `label_fields` classes
kept in parallel) and maps each keypoint (`remove_invisible=False`, so the
keypoint count is preserved and the action is pointwise). -/
structure GeoTf where
  boxTf : List ((ℚ × ℚ × ℚ × ℚ) × ℤ) → List ((ℚ × ℚ × ℚ × ℚ) × ℤ)
  ptTf : (ℚ × ℚ) → (ℚ × ℚ)

/-- Identity instantiation of the geometric-transform interface. -/
def idGeoTf : String → GeoTf := fun _ => ⟨id, id⟩

/-- Geometric per-entry outputs (lines 469-549): one `(name, labels)` pair
per geometric catalog entry.  The listed library transforms keep the input
image dimensions, so labels are renormalized against `w, h`. -/
def geoOutputs (gtf : String → GeoTf) (w h : ℕ)
    (bbs : List ((ℚ × ℚ × ℚ × ℚ) × ℤ)) (kps : List (ℚ × ℚ))
    (poly_splits : List (ℤ × ℕ × ℕ)) : List (String × Option (List Lab)) :=
  geo_aug_names.map (fun nm =>
    (nm, geoNewLabels w h ((gtf nm).boxTf bbs) (kps.map (gtf nm).ptTf) poly_splits))

/-- Photometric per-entry outputs (lines 553-602): one `(name, labels)`
pair per photometric catalog entry, computed from the untransformed
geometry against the unchanged dimensions. -/
def photoOutputs (w h : ℕ) (bbs : List ((ℚ × ℚ × ℚ × ℚ) × ℤ))
    (kps : List (ℚ × ℚ)) (poly_splits : List (ℤ × ℕ × ℕ)) :
    List (String × Option (List Lab)) :=
  photo_aug_names.map (fun nm => (nm, photoNewLabels w h bbs kps poly_splits))

/-- A label file written into the output tree: either a verbatim copy of
the source label file, or a generated list of labels. -/
inductive LblFile where
  | copied : LblFile
  | generated : List Lab → LblFile
deriving DecidableEq

/-- Per-image augmentation body (lines 426-602) for one image that decoded
successfully: returns the image file names and the label files written for
it, or `none` when a label-math exception aborts the whole run.
The original image (name `stem ++ ext`) is always copied; the label file is
copied only when it exists; geometric entries run only when there is at
least one input box or keypoint (line 468); photometric entries always run.
Derived files are named `stem_<entry>.jpg` / `stem_<entry>.txt`. -/
def augPerImage (gtf : String → GeoTf) (stem ext : String) (w h : ℕ)
    (lblExists : Bool) (labs : List Lab) :
    Option (List String × List (String × LblFile)) :=
  let g := buildGeometry w h labs
  let gouts := if g.1 ≠ [] ∨ g.2.1 ≠ [] then geoOutputs gtf w h g.1 g.2.1 g.2.2 else []
  let pouts := photoOutputs w h g.1 g.2.1 g.2.2
  match mapO (fun o => o.2.map (fun L => (o.1, L))) (gouts ++ pouts) with
  | none => none
  | some gen =>
    some ([stem ++ ext] ++ gen.map (fun e => stem ++ "_" ++ e.1 ++ ".jpg"),
          (if lblExists then [(stem ++ ".txt", LblFile.copied)] else [])
            ++ gen.map (fun e => (stem ++ "_" ++ e.1 ++ ".txt", LblFile.generated e.2)))

/-! ### COCO → YOLO conversion
(src/app.py lines 103-219, coco_to_yolo_noninteractive) -/

/-- One record of the document's `images` list (id held separately). -/
structure ImgRec where
  file_name : String
  dims : Option (ℕ × ℕ)
deriving DecidableEq

/-- One record of the document's `annotations` list.  `segmentation` is
`some rings` when the field is present and is a list (each ring a flat
coordinate list); absent or non-list (RLE) segmentation is `none`. -/
structure Ann where
  image_id : ℤ
  category_id : ℤ
  bbox : ℚ × ℚ × ℚ × ℚ
  segmentation : Option (List (List ℚ))
deriving DecidableEq

/-- The annotation document.  `images` and `categories` keep document
order, as the Python dict comprehensions do; ids are unique per the COCO
schema. -/
structure CocoDoc where
  images : List (ℤ × ImgRec)
  annotations : List Ann
  categories : List (ℤ × String)
deriving DecidableEq

/-- `category_mapping = {cat_id: idx for idx, cat_id in
enumerate(categories.keys())}` (line 121): the position of the category id
in DOCUMENT order (dict insertion order), for distinct ids. -/
def category_mapping (cats : List (ℤ × String)) (cid : ℤ) : ℕ :=
  (cats.map Prod.fst).indexOf cid

/-- `categories[k]`: the name stored for a category id. -/
def lookupName (cats : List (ℤ × String)) (k : ℤ) : String :=
  (((cats.find? (fun c => c.1 = k)).map Prod.snd)).getD ""

/-- `class_names = [categories[k] for k in sorted(categories.keys())]`
(line 197): names listed by ASCENDING category id. -/
def class_names (cats : List (ℤ × String)) : List String :=
  ((cats.map Prod.fst).insertionSort (fun a b => a ≤ b)).map (lookupName cats)

/-- Modelled from the spec (not the code): the claim's CategoryIndex, "the
zero-based rank of that id in ascending order of all category ids". -/
def specCategoryRank (cats : List (ℤ × String)) (cid : ℤ) : ℕ :=
  (((cats.map Prod.fst).insertionSort (fun a b => a ≤ b))).indexOf cid

/--`map` for an exception-propagating loop in the `Except` monad. -/
def mapE (f : α → Except String β) : List α → Except String (List β)
  | [] => .ok []
  | x :: xs =>
    match f x, mapE f xs with
    | .ok y, .ok ys => .ok (y :: ys)
    | .error e, _ => .error e
    | _, .error e => .error e

/-- `category_mapping[cat_id]`: Python dict lookup raises `KeyError` on a
missing id. -/
def lookupIdx (cats : List (ℤ × String)) (cid : ℤ) : Except String ℕ :=
  if cid ∈ cats.map Prod.fst then .ok (category_mapping cats cid)
  else .error "KeyError"

/-- One label line written for one annotation (lines 174-194): a polygon
line from the first segmentation ring when the field is a nonempty list
(the numpy `reshape(-1, 2)` raises on an odd-length ring), else the bbox
fallback; all values written at 6-decimal precision. -/
def annLineE (cats : List (ℤ × String)) (w h : ℕ) (ann : Ann) :
    Except String (ℤ × List ℚ) :=
  match lookupIdx cats ann.category_id with
  | .error e => .error e
  | .ok cid =>
    match ann.segmentation with
    | some (ring :: _) =>
      if ring.length % 2 = 0 then
        .ok ((cid : ℤ),
          (pairUp ring).flatMap
            (fun p => [fmt6 (p.1 / (w : ℚ)), fmt6 (p.2 / (h : ℚ))]))
      else .error "cannot reshape"
    | _ =>
      .ok ((cid : ℤ),
        [fmt6 ((ann.bbox.1 + ann.bbox.2.2.1 / 2) / (w : ℚ)),
         fmt6 ((ann.bbox.2.1 + ann.bbox.2.2.2 / 2) / (h : ℚ)),
         fmt6 (ann.bbox.2.2.1 / (w : ℚ)),
         fmt6 (ann.bbox.2.2.2 / (h : ℚ))])

/-- Filesystem environment of the conversion: whether a source image file
exists next to the document, and the dimensions `PIL.Image.open` would
report for it (`none`: opening raises). -/
structure FsEnv where
  srcExists : String → Bool
  diskDims : String → Option (ℕ × ℕ)

/-- Width/height resolution (lines 148-154): from the document when both
fields are present, else by opening the image file. -/
def resolveDims (env : FsEnv) (rec : ImgRec) : Except String (ℕ × ℕ) :=
  match rec.dims with
  | some wh => .ok wh
  | none =>
    match env.diskDims rec.file_name with
    | some wh => .ok wh
    | none => .error "cannot open image"

/-- Per-image conversion body (lines 144-194): resolve dimensions, copy
the image only if the source file exists (lines 168-169), and write one
label line per annotation.  Returns (copied?, label lines). -/
def convertImage (cats : List (ℤ × String)) (env : FsEnv) (rec : ImgRec)
    (anns : List Ann) : Except String (Bool × List (ℤ × List ℚ)) :=
  match resolveDims env rec with
  | .error e => .error e
  | .ok (w, h) =>
    match mapE (annLineE cats w h) anns with
    | .error e => .error e
    | .ok lines => .ok (env.srcExists rec.file_name, lines)

/-- Dataset split (lines 130-136) on the already-shuffled id list:
`image_ids[:n_train]`, `image_ids[n_train:n_train+n_val]`,
`image_ids[n_train+n_val:]` with `n_train = int(n*train_ratio)`,
`n_val = int(n*val_ratio)`. -/
def splitIds (shuffled : List ℤ) (tr vr : ℚ) : List ℤ × List ℤ × List ℤ :=
  let n_train := (⌊(shuffled.length : ℚ) * tr⌋).toNat
  let n_val := (⌊(shuffled.length : ℚ) * vr⌋).toNat
  (shuffled.take n_train, (shuffled.drop n_train).take n_val,
   shuffled.drop (n_train + n_val))

/-- `defaultdict(list)` grouping of annotations by image id (lines
138-140): keys appear in order of first occurrence, each list in
annotation order. -/
def groupByImage (anns : List Ann) : List (ℤ × List Ann) :=
  anns.foldl
    (fun acc a =>
      if acc.any (fun g => g.1 = a.image_id) then
        acc.map (fun g => if g.1 = a.image_id then (g.1, g.2 ++ [a]) else g)
      else acc ++ [(a.image_id, [a])])
    []

/-- The body of the `try:` block of `coco_to_yolo_noninteractive`
(lines 114-215).  `doc?` is `none` when opening/parsing the document
raises; `shuffle` is the `random.shuffle` permutation oracle.  Returns the
per-split counts and the class-name list of the success tuple. -/
def convInner (env : FsEnv) (doc? : Option CocoDoc)
    (shuffle : List ℤ → List ℤ) (tr vr : ℚ) :
    Except String (ℕ × ℕ × ℕ × List String) :=
  match doc? with
  | none => .error "cannot read document"
  | some doc =>
    let s := splitIds (shuffle (doc.images.map Prod.fst)) tr vr
    match mapE
        (fun g =>
          match (doc.images.find? (fun i => i.1 = g.1)).map Prod.snd with
          | none => .error "KeyError"
          | some rec => convertImage doc.categories env rec g.2)
        (groupByImage doc.annotations) with
    | .error e => .error e
    | .ok _ =>
      .ok (s.1.toFinset.card, s.2.1.toFinset.card, s.2.2.toFinset.card,
           class_names doc.categories)

/-- `coco_to_yolo_noninteractive` (lines 103-219): the `except Exception`
boundary turns any raised error into the single failure tuple
`(False, 0, 0, 0, [])`; a normal run returns the success tuple. -/
def coco_to_yolo (env : FsEnv) (doc? : Option CocoDoc)
    (shuffle : List ℤ → List ℤ) (tr vr : ℚ) :
    Bool × ℕ × ℕ × ℕ × List String :=
  match convInner env doc? shuffle tr vr with
  | .ok (a, b, c, names) => (true, a, b, c, names)
  | .error _ => (false, 0, 0, 0, [])

/-! ### Image model for photometric transforms
(src/app.py lines 316-322 low_res; catalog lines 368-395) -/

/-- A decoded image: dimensions plus a pixel plane. -/
structure Img where
  h : ℕ
  w : ℕ
  pix : ℕ → ℕ → ℕ

/-- `cv2.resize(img, (newW, newH))`: an image of exactly the requested
dimensions whose pixels are resampled from the input. -/
def cv2resize (img : Img) (newW newH : ℕ) : Img :=
  ⟨newH, newW, fun y x => img.pix (y * img.h / newH) (x * img.w / newW)⟩

/-- `low_res` (lines 316-322) at a drawn scale factor `s`: downscale to
`max 1 ⌊dim * s⌋` and upscale back to the original `(w, h)`. -/
def low_res (s : ℚ) (img : Img) : Img :=
  let new_h := max 1 (⌊(img.h : ℚ) * s⌋).toNat
  let new_w := max 1 (⌊(img.w : ℚ) * s⌋).toNat
  cv2resize (cv2resize img new_w new_h) img.w img.h

/-- A photometric catalog entry's action on the image.  Every entry except
`low_res` is a pixel-plane operation of the external image library
(brightness/contrast, HSV, CLAHE, blur, noise, ...), modelled as a kernel
that replaces pixel values; `low_res` is repo code, modelled concretely. -/
inductive PhotoAug where
  | kernelOp : ((ℕ → ℕ → ℕ) → ℕ → ℕ → ℕ) → PhotoAug
  | lowRes : ℚ → PhotoAug

/-- Apply one photometric catalog entry to an image. -/
def applyPhotoAug : PhotoAug → Img → Img
  | .kernelOp k, img => ⟨img.h, img.w, k img.pix⟩
  | .lowRes s, img => low_res s img

/-! ### Specification views used to state and prove the theorems -/

/-- A label respecting the data model: either a bbox (and no polygon), or a
polygon of at least 3 points (and no bbox). -/
def WFLab (l : Lab) : Prop :=
  (l.bbox.isSome = true ∧ l.poly = none) ∨
  (l.bbox = none ∧ ∃ pts, l.poly = some pts ∧ 3 ≤ pts.length)

/-- The `(pixel box, class)` pairs the geometry pre-pass extracts, in label
order: one per bbox label. -/
def bboxPartOf (w h : ℕ) (labs : List Lab) : List ((ℚ × ℚ × ℚ × ℚ) × ℤ) :=
  labs.filterMap (fun l => l.bbox.map (fun b => (denormBbox w h b, l.cls)))

/-- The `(class, normalized points)` pairs of the polygon labels, in label
order: one per polygon label (a label carrying a bbox is never treated as a
polygon, matching the `elif`). -/
def polysOf (labs : List Lab) : List (ℤ × List (ℚ × ℚ)) :=
  labs.filterMap (fun l =>
    match l.bbox, l.poly with
    | none, some pts => some (l.cls, pts)
    | _, _ => none)

/-- The polygon labels with vertices scaled to pixel space. -/
def scaledPolys (w h : ℕ) (labs : List Lab) : List (ℤ × List (ℚ × ℚ)) :=
  (polysOf labs).map (fun p => (p.1, p.2.map (fun q => (q.1 * (w : ℚ), q.2 * (h : ℚ)))))

/-- The flat keypoint list the pre-pass accumulates. -/
def kpsOf (w h : ℕ) (labs : List Lab) : List (ℚ × ℚ) :=
  ((scaledPolys w h labs).map Prod.snd).flatten

/-- The `(class, start, length)` split records for a polygon list laid out
flat starting at offset `ofs`. -/
def splitsOfAux (ofs : ℕ) : List (ℤ × List (ℚ × ℚ)) → List (ℤ × ℕ × ℕ)
  | [] => []
  | p :: ps => (p.1, ofs, p.2.length) :: splitsOfAux (ofs + p.2.length) ps

/-! ### Helper lemmas -/

theorem pairUp_length : ∀ l : List ℚ, (pairUp l).length = l.length / 2
  | [] => rfl
  | [_] => by simp [pairUp]
  | x :: y :: rest => by
    simp only [pairUp, List.length_cons]
    rw [pairUp_length rest]
    omega

theorem mapO_eq_map (f : α → Option β) (g : α → β) (l : List α)
    (h : ∀ x ∈ l, f x = some (g x)) : mapO f l = some (l.map g) := by
  induction l with
  | nil => rfl
  | cons x xs ih =>
    have hx := h x (by simp)
    have hxs := ih (fun y hy => h y (by simp [hy]))
    simp [mapO, hx, hxs]

theorem mapO_length (f : α → Option β) :
    ∀ l ys, mapO f l = some ys → ys.length = l.length := by
  intro l
  induction l with
  | nil => intro ys hy; simp [mapO] at hy; simp [← hy]
  | cons x xs ih =>
    intro ys hy
    simp only [mapO] at hy
    rcases hfx : f x with _ | y0
    · rw [hfx] at hy; simp at hy
    · rcases hrest : mapO f xs with _ | ys0
      · rw [hfx, hrest] at hy; simp at hy
      · rw [hfx, hrest] at hy
        simp at hy
        simp [← hy, ih ys0 hrest]

theorem mapO_map (f : β → Option γ) (g : α → β) (l : List α) :
    mapO f (l.map g) = mapO (fun x => f (g x)) l := by
  induction l with
  | nil => rfl
  | cons x xs ih => simp [mapO, ih]

theorem mapE_ok_length (f : α → Except String β) :
    ∀ l ys, mapE f l = .ok ys → ys.length = l.length := by
  intro l
  induction l with
  | nil => intro ys hy; simp [mapE] at hy; simp [← hy]
  | cons x xs ih =>
    intro ys hy
    simp only [mapE] at hy
    rcases hfx : f x with e | y0 <;> rw [hfx] at hy
    · simp at hy
    · rcases hrest : mapE f xs with e | ys0 <;> rw [hrest] at hy
      · simp at hy
      · simp at hy
        simp [← hy, ih ys0 hrest]

theorem splitsOfAux_length : ∀ (ofs : ℕ) (ps : List (ℤ × List (ℚ × ℚ))),
    (splitsOfAux ofs ps).length = ps.length
  | _, [] => rfl
  | ofs, p :: ps => by
    simp [splitsOfAux, splitsOfAux_length (ofs + p.2.length) ps]

theorem bboxFromCorners_denormBbox (w h : ℕ) (hw : 0 < w) (hh : 0 < h)
    (b : ℚ × ℚ × ℚ × ℚ) : bboxFromCorners w h (denormBbox w h b) = b := by
  obtain ⟨cx, cy, bw, bh⟩ := b
  have hw' : (w : ℚ) ≠ 0 := Nat.cast_ne_zero.mpr hw.ne'
  have hh' : (h : ℚ) ≠ 0 := Nat.cast_ne_zero.mpr hh.ne'
  simp only [bboxFromCorners, denormBbox, Prod.mk.injEq]
  refine ⟨?_, ?_, ?_, ?_⟩ <;> field_simp <;> ring

theorem polygon_to_bbox_norm_isSome (pts : List (ℚ × ℚ)) (w h : ℕ)
    (hne : pts ≠ []) : ∃ bb, polygon_to_bbox_norm pts w h = some bb := by
  rcases pts with _ | ⟨p, rest⟩
  · exact absurd rfl hne
  · exact ⟨_, rfl⟩

theorem geoPolyEntry_isSome (w h : ℕ) (cls : ℤ) (pts : List (ℚ × ℚ))
    (hne : pts ≠ []) : ∃ lab, geoPolyEntry w h cls pts = some lab := by
  simp only [geoPolyEntry]
  by_cases h3 :
      3 ≤ (pts.map (fun p => (clamp01 (p.1 / (w : ℚ)), clamp01 (p.2 / (h : ℚ))))).length
  · rw [if_pos h3]
    exact ⟨_, rfl⟩
  · rw [if_neg h3]
    have hne2 :
        (pts.map (fun p => (clamp01 (p.1 / (w : ℚ)), clamp01 (p.2 / (h : ℚ))))).map
            (fun p => (p.1 * (w : ℚ), p.2 * (h : ℚ))) ≠ [] := by
      simpa using hne
    obtain ⟨bb, hbb⟩ := polygon_to_bbox_norm_isSome _ w h hne2
    rw [hbb]
    exact ⟨_, rfl⟩

theorem buildGeometry_go (w h : ℕ) :
    ∀ (labs : List Lab) (B : List ((ℚ × ℚ × ℚ × ℚ) × ℤ)) (K : List (ℚ × ℚ))
      (S : List (ℤ × ℕ × ℕ)),
      labs.foldl (geomStep w h) (B, K, S) =
        (B ++ bboxPartOf w h labs, K ++ kpsOf w h labs,
         S ++ splitsOfAux K.length (scaledPolys w h labs)) := by
  intro labs
  induction labs with
  | nil =>
    intro B K S
    simp [bboxPartOf, kpsOf, scaledPolys, polysOf, splitsOfAux]
  | cons l rest ih =>
    intro B K S
    simp only [List.foldl_cons]
    rcases hb : l.bbox with _ | b
    · rcases hp : l.poly with _ | pts
      · have hstep : geomStep w h (B, K, S) l = (B, K, S) := by
          simp [geomStep, hb, hp]
        rw [hstep, ih]
        simp [bboxPartOf, kpsOf, scaledPolys, polysOf, List.filterMap_cons, hb, hp]
      · have hstep : geomStep w h (B, K, S) l =
            (B, K ++ pts.map (fun p => (p.1 * (w : ℚ), p.2 * (h : ℚ))),
             S ++ [(l.cls, K.length, (pts.map (fun p => (p.1 * (w : ℚ), p.2 * (h : ℚ)))).length)]) := by
          simp only [geomStep, hb, hp]
        rw [hstep, ih]
        simp [bboxPartOf, kpsOf, scaledPolys, polysOf, List.filterMap_cons, hb, hp,
          splitsOfAux, List.length_append, List.append_assoc]
    · have hstep : geomStep w h (B, K, S) l = (B ++ [(denormBbox w h b, l.cls)], K, S) := by
        simp [geomStep, hb]
      rw [hstep, ih]
      simp [bboxPartOf, kpsOf, scaledPolys, polysOf, List.filterMap_cons, hb]

theorem buildGeometry_eq (w h : ℕ) (labs : List Lab) :
    buildGeometry w h labs =
      (bboxPartOf w h labs, kpsOf w h labs, splitsOfAux 0 (scaledPolys w h labs)) := by
  have hgo := buildGeometry_go w h labs [] [] []
  simpa [buildGeometry] using hgo

theorem photo_polys_aux (w h : ℕ) (full : List (ℚ × ℚ)) :
    ∀ (ps : List (ℤ × List (ℚ × ℚ))) (K : List (ℚ × ℚ)),
      full = K ++ (ps.map Prod.snd).flatten →
      (∀ p ∈ ps, 3 ≤ p.2.length) →
      mapO (fun s => photoPolyEntry w h s.1 ((full.drop s.2.1).take s.2.2))
          (splitsOfAux K.length ps) =
        some (ps.map (fun p =>
          ⟨p.1, none, some (p.2.map (fun q => (q.1 / (w : ℚ), q.2 / (h : ℚ))))⟩)) := by
  intro ps
  induction ps with
  | nil => intro K _ _; rfl
  | cons p ps ih =>
    intro K hfull h3
    have hslice : (full.drop K.length).take p.2.length = p.2 := by
      rw [hfull, List.map_cons, List.flatten_cons, List.drop_left, List.take_left]
    have hhead : photoPolyEntry w h p.1 ((full.drop K.length).take p.2.length) =
        some ⟨p.1, none, some (p.2.map (fun q => (q.1 / (w : ℚ), q.2 / (h : ℚ))))⟩ := by
      rw [hslice]
      have h3p : 3 ≤ (p.2.map (fun q => (q.1 / (w : ℚ), q.2 / (h : ℚ)))).length := by
        simpa using h3 p (by simp)
      simp only [photoPolyEntry]
      rw [if_pos h3p]
    have htail := ih (K ++ p.2)
      (by rw [hfull, List.map_cons, List.flatten_cons, List.append_assoc])
      (fun q hq => h3 q (by simp [hq]))
    rw [List.length_append] at htail
    simp only [splitsOfAux, mapO, hhead, htail, List.map_cons]

theorem unscale_scale (w h : ℕ) (hw : 0 < w) (hh : 0 < h) (pts : List (ℚ × ℚ)) :
    (pts.map (fun q => (q.1 * (w : ℚ), q.2 * (h : ℚ)))).map
        (fun q => (q.1 / (w : ℚ), q.2 / (h : ℚ))) = pts := by
  have hw' : (w : ℚ) ≠ 0 := Nat.cast_ne_zero.mpr hw.ne'
  have hh' : (h : ℚ) ≠ 0 := Nat.cast_ne_zero.mpr hh.ne'
  rw [List.map_map]
  have hfun : ∀ q ∈ pts,
      ((fun q : ℚ × ℚ => (q.1 / (w : ℚ), q.2 / (h : ℚ))) ∘
        (fun q : ℚ × ℚ => (q.1 * (w : ℚ), q.2 * (h : ℚ)))) q = id q := by
    intro q _
    simp [Function.comp, Prod.ext_iff]
    constructor <;> field_simp
  rw [List.map_congr_left hfun, List.map_id]

theorem bboxPart_filter (w h : ℕ) (hw : 0 < w) (hh : 0 < h) :
    ∀ labs : List Lab, (∀ l ∈ labs, WFLab l) →
      (bboxPartOf w h labs).map (mkBboxLab w h) =
        labs.filter (fun l => l.bbox.isSome) := by
  intro labs
  induction labs with
  | nil => intro _; rfl
  | cons l rest ih =>
    intro hwf
    have hl := hwf l (by simp)
    have htail := ih (fun y hy => hwf y (by simp [hy]))
    obtain ⟨cls, bb, pp⟩ := l
    rcases hb : bb with _ | b
    · subst hb
      simpa [bboxPartOf, List.filterMap_cons, List.filter_cons] using htail
    · subst hb
      have hpoly : pp = none := by
        rcases hl with ⟨_, hp⟩ | ⟨hbn, _⟩
        · exact hp
        · simp at hbn
      subst hpoly
      simpa [bboxPartOf, List.filterMap_cons, List.filter_cons, mkBboxLab,
        bboxFromCorners_denormBbox w h hw hh b] using htail

theorem polys_filter :
    ∀ labs : List Lab, (∀ l ∈ labs, WFLab l) →
      (polysOf labs).map (fun p => (⟨p.1, none, some p.2⟩ : Lab)) =
        labs.filter (fun l => !l.bbox.isSome) := by
  intro labs
  induction labs with
  | nil => intro _; rfl
  | cons l rest ih =>
    intro hwf
    have hl := hwf l (by simp)
    have htail := ih (fun y hy => hwf y (by simp [hy]))
    obtain ⟨cls, bb, pp⟩ := l
    rcases hb : bb with _ | b
    · subst hb
      have hpts : ∃ pts, pp = some pts ∧ 3 ≤ pts.length := by
        rcases hl with ⟨hbs, _⟩ | ⟨_, hex⟩
        · simp at hbs
        · exact hex
      obtain ⟨pts, hpp, _⟩ := hpts
      subst hpp
      simpa [polysOf, List.filterMap_cons, List.filter_cons] using htail
    · subst hb
      simpa [polysOf, List.filterMap_cons, List.filter_cons] using htail

/-! ### Claim theorems -/

/-- C3 counterexample: the claim says parse must fail on a line whose class
token is followed by 0 or 2 floats; the code instead returns a degenerate
polygon label (of 1 point, resp. 0 points) for such lines. -/
theorem parse_two_floats_returns_poly :
    parse_yolo_label 0 [1/2, 3/4] = some ⟨0, none, some [(1/2, 3/4)]⟩ ∧
    parse_yolo_label 0 [] = some ⟨0, none, some []⟩ := by
  constructor <;> norm_num [parse_yolo_label, pairUp]

/-- C3 amended: `parse_yolo_label` fails exactly when the float count after
the class token is odd (an `IndexError` in the pair comprehension); every
even count other than 4 — including the degenerate counts 0 and 2 — is
returned as a polygon label of `count / 2` points. -/
theorem parse_fail_iff_odd (cls : ℤ) (coords : List ℚ) :
    (parse_yolo_label cls coords = none ↔ coords.length % 2 = 1) ∧
    (coords.length % 2 = 0 → coords.length ≠ 4 →
      parse_yolo_label cls coords = some ⟨cls, none, some (pairUp coords)⟩ ∧
      (pairUp coords).length = coords.length / 2) := by
  rcases coords with _ | ⟨a, _ | ⟨b, _ | ⟨c, _ | ⟨d, _ | ⟨e, rest⟩⟩⟩⟩⟩
  · exact ⟨by simp [parse_yolo_label], fun _ _ =>
      ⟨by simp [parse_yolo_label, pairUp], pairUp_length _⟩⟩
  · refine ⟨by simp [parse_yolo_label], fun hpar _ => absurd hpar (by simp)⟩
  · exact ⟨by simp [parse_yolo_label], fun _ _ =>
      ⟨by simp [parse_yolo_label, pairUp], pairUp_length _⟩⟩
  · refine ⟨by simp [parse_yolo_label], fun hpar _ => absurd hpar (by simp)⟩
  · exact ⟨by simp [parse_yolo_label], fun _ h4 => absurd rfl h4⟩
  · constructor
    · by_cases hpar : (5 + rest.length) % 2 = 1
      · simp [parse_yolo_label, hpar]
      · simp [parse_yolo_label, hpar]
    · intro hpar _
      have hodd : ¬ ((a :: b :: c :: d :: e :: rest).length % 2 = 1) := by
        simp only [List.length_cons] at hpar ⊢
        omega
      refine ⟨?_, pairUp_length _⟩
      simp only [parse_yolo_label]
      rw [if_neg hodd]

/-- C3 amended, witness at a concrete 2-float line. -/
theorem parse_fail_iff_odd_witness :
    (parse_yolo_label 0 [1, 2] = none ↔ [(1 : ℚ), 2].length % 2 = 1) ∧
    ([(1 : ℚ), 2].length % 2 = 0 → [(1 : ℚ), 2].length ≠ 4 →
      parse_yolo_label 0 [1, 2] = some ⟨0, none, some (pairUp [1, 2])⟩ ∧
      (pairUp [(1 : ℚ), 2]).length = [(1 : ℚ), 2].length / 2) :=
  parse_fail_iff_odd 0 [1, 2]

/-- C7: a line with exactly 4 numeric fields after the class token always
parses as a bbox (never as a 2-point polygon), and a line with exactly 6
numeric fields parses as a polygon of exactly 3 points. -/
theorem parse_four_and_six (cls : ℤ) (a b c d e f : ℚ) :
    parse_yolo_label cls [a, b, c, d] = some ⟨cls, some (a, b, c, d), none⟩ ∧
    parse_yolo_label cls [a, b, c, d, e, f] =
      some ⟨cls, none, some [(a, b), (c, d), (e, f)]⟩ :=
  ⟨rfl, by simp [parse_yolo_label, pairUp]⟩

/-- C1: the conversion's category index is the position of the category id
in DOCUMENT order (line 121), while `classes.txt` lists names by ascending
id (line 197).  For a document whose categories are not listed in
ascending id order, the class index written into the label lines does not
point at the matching name: category id 1 ("a") gets class index 1, but
entry 1 of `classes.txt` is "b". -/
theorem category_index_document_order_bug :
    category_mapping [(2, "b"), (1, "a")] 1 = 1 ∧
    specCategoryRank [(2, "b"), (1, "a")] 1 = 0 ∧
    category_mapping [(1, "a"), (2, "b")] 1 = 0 ∧
    class_names [(2, "b"), (1, "a")] = ["a", "b"] ∧
    annLineE [(2, "b"), (1, "a")] 10 10 ⟨1, 1, (0, 0, 5, 5), none⟩ =
      .ok (1, [1/4, 1/4, 1/2, 1/2]) ∧
    (class_names [(2, "b"), (1, "a")]).getD 1 "" = "b" ∧
    lookupName [(2, "b"), (1, "a")] 1 = "a" := by
  refine ⟨by decide, by decide, by decide, by decide, ?_, by decide, by decide⟩
  norm_num [annLineE, lookupIdx, category_mapping, fmt6, List.indexOf, List.findIdx,
    List.findIdx.go]
  decide

/-- C8: any error raised inside the conversion body is caught at the stage
boundary and reported as the single failure tuple
`(False, 0, 0, 0, [])`; nothing propagates to the caller. -/
theorem conversion_failure_single_result (env : FsEnv) (doc? : Option CocoDoc)
    (shuffle : List ℤ → List ℤ) (tr vr : ℚ) (msg : String)
    (hfail : convInner env doc? shuffle tr vr = .error msg) :
    coco_to_yolo env doc? shuffle tr vr = (false, 0, 0, 0, []) := by
  simp [coco_to_yolo, hfail]

/-- C8 witness: a missing document yields the failure tuple. -/
theorem conversion_failure_single_result_witness :
    coco_to_yolo ⟨fun _ => false, fun _ => none⟩ none id (7/10) (1/5) =
      (false, 0, 0, 0, []) :=
  conversion_failure_single_result _ _ _ _ _ "cannot read document" rfl

/-- C9: for an image whose width/height are present in the document but
whose source file is absent from disk, the per-image conversion body still
succeeds: the image copy is skipped (`copied = false`) while the label
lines — one per annotation — are written anyway. -/
theorem label_written_without_image (cats : List (ℤ × String)) (env : FsEnv)
    (rec : ImgRec) (anns : List Ann) (w h : ℕ) (lines : List (ℤ × List ℚ))
    (hdims : rec.dims = some (w, h))
    (hmissing : env.srcExists rec.file_name = false)
    (hanns : mapE (annLineE cats w h) anns = .ok lines) :
    convertImage cats env rec anns = .ok (false, lines) ∧
    lines.length = anns.length := by
  constructor
  · simp only [convertImage, resolveDims, hdims, hanns, hmissing]
  · exact mapE_ok_length _ _ _ hanns

/-- C9 witness: one bbox annotation, document dimensions 10×10, missing
source image file. -/
theorem label_written_without_image_witness :
    convertImage [(1, "a")] ⟨fun _ => false, fun _ => none⟩ ⟨"x.jpg", some (10, 10)⟩
        [⟨1, 1, (0, 0, 5, 5), none⟩] =
      .ok (false, [(0, [1/4, 1/4, 1/2, 1/2])]) ∧
    [((0 : ℤ), [(1 : ℚ)/4, 1/4, 1/2, 1/2])].length = [(⟨1, 1, (0, 0, 5, 5), none⟩ : Ann)].length := by
  refine label_written_without_image _ _ _ _ 10 10 _ rfl rfl ?_
  norm_num [mapE, annLineE, lookupIdx, category_mapping, fmt6, List.indexOf,
    List.findIdx, List.findIdx.go]

/-- C4: on the shuffled id list the split takes the first
`⌊n·train_ratio⌋` ids as train, the next `⌊n·val_ratio⌋` as valid, and
every remaining id as test; for distinct ids the three parts are pairwise
disjoint and their sizes sum to `n`, with the stated sizes whenever the
ratios are nonnegative and sum to at most 1. -/
theorem split_partition (ids : List ℤ) (tr vr : ℚ) (h0t : 0 ≤ tr) (h0v : 0 ≤ vr)
    (hsum : tr + vr ≤ 1) (hnd : ids.Nodup) :
    (splitIds ids tr vr).1 = ids.take (⌊(ids.length : ℚ) * tr⌋).toNat ∧
    (splitIds ids tr vr).2.1 =
      (ids.drop (⌊(ids.length : ℚ) * tr⌋).toNat).take (⌊(ids.length : ℚ) * vr⌋).toNat ∧
    (splitIds ids tr vr).2.2 =
      ids.drop ((⌊(ids.length : ℚ) * tr⌋).toNat + (⌊(ids.length : ℚ) * vr⌋).toNat) ∧
    (splitIds ids tr vr).1.Disjoint (splitIds ids tr vr).2.1 ∧
    (splitIds ids tr vr).1.Disjoint (splitIds ids tr vr).2.2 ∧
    (splitIds ids tr vr).2.1.Disjoint (splitIds ids tr vr).2.2 ∧
    (splitIds ids tr vr).1.length = (⌊(ids.length : ℚ) * tr⌋).toNat ∧
    (splitIds ids tr vr).2.1.length = (⌊(ids.length : ℚ) * vr⌋).toNat ∧
    (splitIds ids tr vr).1.length + (splitIds ids tr vr).2.1.length +
        (splitIds ids tr vr).2.2.length = ids.length := by
  have hN : (0 : ℚ) ≤ (ids.length : ℚ) := Nat.cast_nonneg _
  have hta : (0 : ℚ) ≤ (ids.length : ℚ) * tr := mul_nonneg hN h0t
  have htv : (0 : ℚ) ≤ (ids.length : ℚ) * vr := mul_nonneg hN h0v
  have hle : (ids.length : ℚ) * tr + (ids.length : ℚ) * vr ≤ (ids.length : ℚ) := by
    have hmul := mul_le_mul_of_nonneg_left hsum hN
    nlinarith
  have hfl : ⌊(ids.length : ℚ) * tr⌋ + ⌊(ids.length : ℚ) * vr⌋ ≤ (ids.length : ℤ) := by
    have hcast : ((⌊(ids.length : ℚ) * tr⌋ + ⌊(ids.length : ℚ) * vr⌋ : ℤ) : ℚ) ≤
        (ids.length : ℚ) := by
      push_cast
      linarith [Int.floor_le ((ids.length : ℚ) * tr), Int.floor_le ((ids.length : ℚ) * vr)]
    exact_mod_cast hcast
  have hfa : 0 ≤ ⌊(ids.length : ℚ) * tr⌋ := Int.floor_nonneg.mpr hta
  have hfv : 0 ≤ ⌊(ids.length : ℚ) * vr⌋ := Int.floor_nonneg.mpr htv
  have hab : (⌊(ids.length : ℚ) * tr⌋).toNat + (⌊(ids.length : ℚ) * vr⌋).toNat ≤
      ids.length := by omega
  have hab : (⌊(ids.length : ℚ) * tr⌋).toNat + (⌊(ids.length : ℚ) * vr⌋).toNat ≤
      ids.length := by omega
  have key : ∀ a b : ℕ,
      ((ids.take a).Disjoint ((ids.drop a).take b)) ∧
      ((ids.take a).Disjoint (ids.drop (a + b))) ∧
      (((ids.drop a).take b).Disjoint (ids.drop (a + b))) := by
    intro a b
    have hd1 : (ids.take a).Disjoint (ids.drop a) :=
      List.disjoint_take_drop hnd (le_refl a)
    have hdn : (ids.drop a).Nodup := hnd.sublist (List.drop_sublist a ids)
    have hdd : ids.drop (a + b) = (ids.drop a).drop b := by
      rw [List.drop_drop, Nat.add_comm]
    refine ⟨fun x hx hx' => hd1 hx (List.take_subset _ _ hx'), ?_, ?_⟩
    · intro x hx hx'
      rw [hdd] at hx'
      exact hd1 hx (List.drop_subset _ _ hx')
    · intro x hx hx'
      rw [hdd] at hx'
      exact List.disjoint_take_drop hdn (le_refl b) hx hx'
  obtain ⟨k1, k2, k3⟩ := key (⌊(ids.length : ℚ) * tr⌋).toNat (⌊(ids.length : ℚ) * vr⌋).toNat
  refine ⟨rfl, rfl, rfl, k1, k2, k3, ?_, ?_, ?_⟩
  · simp only [splitIds, List.length_take]
    omega
  · simp only [splitIds, List.length_take, List.length_drop]
    omega
  · simp only [splitIds, List.length_take, List.length_drop]
    omega

/-- C4 witness: ten distinct ids, `train_ratio = 0.7`, `val_ratio = 0.2`
give the 7 / 2 / 1 partition of the claim's example. -/
theorem split_partition_witness :
    (splitIds [0, 1, 2, 3, 4, 5, 6, 7, 8, 9] (7/10) (1/5)).1.length = 7 ∧
    (splitIds [0, 1, 2, 3, 4, 5, 6, 7, 8, 9] (7/10) (1/5)).2.1.length = 2 ∧
    (splitIds [0, 1, 2, 3, 4, 5, 6, 7, 8, 9] (7/10) (1/5)).2.2.length = 1 ∧
    (splitIds [0, 1, 2, 3, 4, 5, 6, 7, 8, 9] (7/10) (1/5)).1.Disjoint
      (splitIds [0, 1, 2, 3, 4, 5, 6, 7, 8, 9] (7/10) (1/5)).2.1 := by
  have hmain := split_partition [0, 1, 2, 3, 4, 5, 6, 7, 8, 9] (7/10) (1/5)
    (by norm_num) (by norm_num) (by norm_num) (by decide)
  obtain ⟨-, -, -, hd1, -, -, hlt, hlv, hsum⟩ := hmain
  have h7 : (⌊(([0, 1, 2, 3, 4, 5, 6, 7, 8, 9] : List ℤ).length : ℚ) * (7/10)⌋).toNat = 7 := by
    norm_num
    rfl
  have h2 : (⌊(([0, 1, 2, 3, 4, 5, 6, 7, 8, 9] : List ℤ).length : ℚ) * (1/5)⌋).toNat = 2 := by
    norm_num
    rfl
  rw [h7] at hlt
  rw [h2] at hlv
  rw [hlt, hlv] at hsum
  simp only [List.length_cons, List.length_nil] at hsum
  exact ⟨hlt, hlv, by omega, hd1⟩

/-- C6 counterexample: a 1-point polygon whose transformed keypoint lies
outside the image is re-emitted as a bbox over the CLAMPED point, not over
the transformed point's extent: the code yields center `(0, 1/2)` where
the raw extent of the transformed points gives center `(-1/2, 1/2)`. -/
theorem geo_degenerate_bbox_is_clamped :
    geoNewLabels 10 10 [] [(-5, 5)] [(0, 0, 1)] =
      some [⟨0, some (0, 1/2, 0, 0), none⟩] ∧
    polygon_to_bbox_norm [(-5, 5)] 10 10 = some (-(1/2), 1/2, 0, 0) ∧
    ((0 : ℚ), ((1 : ℚ)/2, (0 : ℚ), (0 : ℚ))) ≠ (-(1/2), 1/2, 0, 0) := by
  refine ⟨?_, ?_, ?_⟩
  · norm_num [geoNewLabels, mapO, reconstruct_polygons_from_keypoints, geoPolyEntry,
      clamp01, polygon_to_bbox_norm, qmin, qmax, mkBboxLab]
  · norm_num [polygon_to_bbox_norm, qmin, qmax]
  · norm_num [Prod.ext_iff]

/-- C6 amended: every nonempty polygon passed through the geometric path
produces exactly one output label — a clamped polygon when at least 3
vertices survive, otherwise a bbox covering the min/max extent of the
CLAMPED transformed points — and is never dropped (an empty polygon
instead aborts the run with an error, modelled elsewhere by `none`). -/
theorem geo_poly_one_label_each (w h : ℕ) (tb : List ((ℚ × ℚ × ℚ × ℚ) × ℤ))
    (tk : List (ℚ × ℚ)) (sp : List (ℤ × ℕ × ℕ))
    (hne : ∀ s ∈ sp, (tk.drop s.2.1).take s.2.2 ≠ []) :
    ∃ P : List Lab,
      geoNewLabels w h tb tk sp = some (tb.map (mkBboxLab w h) ++ P) ∧
      P.length = sp.length ∧
      ∀ i, i < sp.length →
        ((3 ≤ ((tk.drop (sp.getD i (0, 0, 0)).2.1).take (sp.getD i (0, 0, 0)).2.2).length →
          P.getD i ⟨0, none, none⟩ =
            ⟨(sp.getD i (0, 0, 0)).1, none,
             some (((tk.drop (sp.getD i (0, 0, 0)).2.1).take (sp.getD i (0, 0, 0)).2.2).map
               (fun p => (clamp01 (p.1 / (w : ℚ)), clamp01 (p.2 / (h : ℚ)))))⟩) ∧
         (((tk.drop (sp.getD i (0, 0, 0)).2.1).take (sp.getD i (0, 0, 0)).2.2).length < 3 →
          ∃ bb, polygon_to_bbox_norm
                ((((tk.drop (sp.getD i (0, 0, 0)).2.1).take (sp.getD i (0, 0, 0)).2.2).map
                  (fun p => (clamp01 (p.1 / (w : ℚ)), clamp01 (p.2 / (h : ℚ))))).map
                  (fun p => (p.1 * (w : ℚ), p.2 * (h : ℚ)))) w h = some bb ∧
            P.getD i ⟨0, none, none⟩ = ⟨(sp.getD i (0, 0, 0)).1, some bb, none⟩)) := by
  refine ⟨sp.map (fun s =>
    (geoPolyEntry w h s.1 ((tk.drop s.2.1).take s.2.2)).getD ⟨0, none, none⟩), ?_, ?_, ?_⟩
  · have hmap : mapO (fun cp => geoPolyEntry w h cp.1 cp.2)
        (reconstruct_polygons_from_keypoints tk sp) =
        some (sp.map (fun s =>
          (geoPolyEntry w h s.1 ((tk.drop s.2.1).take s.2.2)).getD ⟨0, none, none⟩)) := by
      rw [reconstruct_polygons_from_keypoints, mapO_map]
      apply mapO_eq_map
      intro s hs
      obtain ⟨lab, hlab⟩ := geoPolyEntry_isSome w h s.1 _ (hne s hs)
      rw [hlab]
      simp
    simp only [geoNewLabels, hmap]
  · simp
  · intro i hi
    have hiP : i < (sp.map (fun s =>
        (geoPolyEntry w h s.1 ((tk.drop s.2.1).take s.2.2)).getD
          (⟨0, none, none⟩ : Lab))).length := by
      simpa using hi
    have hgets : sp.getD i (0, 0, 0) = sp.get ⟨i, hi⟩ := by
      simp [List.getD_eq_getElem?_getD, List.getElem?_eq_getElem hi]
    have hgetP : (sp.map (fun s =>
        (geoPolyEntry w h s.1 ((tk.drop s.2.1).take s.2.2)).getD
          (⟨0, none, none⟩ : Lab))).getD i ⟨0, none, none⟩ =
        (geoPolyEntry w h (sp.get ⟨i, hi⟩).1
          ((tk.drop (sp.get ⟨i, hi⟩).2.1).take (sp.get ⟨i, hi⟩).2.2)).getD
          ⟨0, none, none⟩ := by
      simp [List.getD_eq_getElem?_getD, List.getElem?_eq_getElem hiP]
    have hmem : sp.get ⟨i, hi⟩ ∈ sp := List.get_mem sp i hi
    rw [hgets, hgetP]
    constructor
    · intro h3
      have h3n : 3 ≤ (((tk.drop (sp.get ⟨i, hi⟩).2.1).take (sp.get ⟨i, hi⟩).2.2).map
          (fun p => (clamp01 (p.1 / (w : ℚ)), clamp01 (p.2 / (h : ℚ))))).length := by
        simpa using h3
      simp only [geoPolyEntry]
      rw [if_pos h3n]
      simp
    · intro hlt
      have hltn : ¬ 3 ≤ (((tk.drop (sp.get ⟨i, hi⟩).2.1).take (sp.get ⟨i, hi⟩).2.2).map
          (fun p => (clamp01 (p.1 / (w : ℚ)), clamp01 (p.2 / (h : ℚ))))).length := by
        simpa using Nat.not_le.mpr hlt
      have hne2 : (((tk.drop (sp.get ⟨i, hi⟩).2.1).take (sp.get ⟨i, hi⟩).2.2).map
          (fun p => (clamp01 (p.1 / (w : ℚ)), clamp01 (p.2 / (h : ℚ))))).map
          (fun p => (p.1 * (w : ℚ), p.2 * (h : ℚ))) ≠ [] := by
        simpa using hne _ hmem
      obtain ⟨bb, hbb⟩ := polygon_to_bbox_norm_isSome _ w h hne2
      refine ⟨bb, hbb, ?_⟩
      simp only [geoPolyEntry]
      rw [if_neg hltn, hbb]
      simp

/-- C6 amended, witness: one 3-point polygon slice yields exactly one
clamped polygon label. -/
theorem geo_poly_one_label_each_witness :
    ∃ P : List Lab,
      geoNewLabels 2 2 [] [(1, 2), (3, 4), (5, 6)] [(7, 0, 3)] =
        some (([] : List ((ℚ × ℚ × ℚ × ℚ) × ℤ)).map (mkBboxLab 2 2) ++ P) ∧
      P.length = [((7 : ℤ), (0 : ℕ), (3 : ℕ))].length ∧
      ∀ i, i < [((7 : ℤ), (0 : ℕ), (3 : ℕ))].length →
        ((3 ≤ ((([(1, 2), (3, 4), (5, 6)] : List (ℚ × ℚ)).drop
              ([((7 : ℤ), (0 : ℕ), (3 : ℕ))].getD i (0, 0, 0)).2.1).take
              ([((7 : ℤ), (0 : ℕ), (3 : ℕ))].getD i (0, 0, 0)).2.2).length →
          P.getD i ⟨0, none, none⟩ =
            ⟨([((7 : ℤ), (0 : ℕ), (3 : ℕ))].getD i (0, 0, 0)).1, none,
             some (((([(1, 2), (3, 4), (5, 6)] : List (ℚ × ℚ)).drop
                 ([((7 : ℤ), (0 : ℕ), (3 : ℕ))].getD i (0, 0, 0)).2.1).take
                 ([((7 : ℤ), (0 : ℕ), (3 : ℕ))].getD i (0, 0, 0)).2.2).map
               (fun p => (clamp01 (p.1 / (2 : ℕ)), clamp01 (p.2 / (2 : ℕ)))))⟩) ∧
         (((([(1, 2), (3, 4), (5, 6)] : List (ℚ × ℚ)).drop
              ([((7 : ℤ), (0 : ℕ), (3 : ℕ))].getD i (0, 0, 0)).2.1).take
              ([((7 : ℤ), (0 : ℕ), (3 : ℕ))].getD i (0, 0, 0)).2.2).length < 3 →
          ∃ bb, polygon_to_bbox_norm
                ((((([(1, 2), (3, 4), (5, 6)] : List (ℚ × ℚ)).drop
                    ([((7 : ℤ), (0 : ℕ), (3 : ℕ))].getD i (0, 0, 0)).2.1).take
                    ([((7 : ℤ), (0 : ℕ), (3 : ℕ))].getD i (0, 0, 0)).2.2).map
                  (fun p => (clamp01 (p.1 / (2 : ℕ)), clamp01 (p.2 / (2 : ℕ))))).map
                  (fun p => (p.1 * (2 : ℕ), p.2 * (2 : ℕ)))) 2 2 = some bb ∧
            P.getD i ⟨0, none, none⟩ =
              ⟨([((7 : ℤ), (0 : ℕ), (3 : ℕ))].getD i (0, 0, 0)).1, some bb, none⟩)) :=
  geo_poly_one_label_each 2 2 [] [(1, 2), (3, 4), (5, 6)] [(7, 0, 3)]
    (by intro s hs; simp at hs; subst hs; decide)


/-- C10: whether geometric or photometric, the augmented label list is the
bbox-derived labels followed by the polygon-derived labels (one per
polygon split); the pre-pass extracts the bbox inputs from the source
labels in label order irrespective of interleaving, and the label writer
preserves the order of the list it is given (it maps over the append). -/
theorem aug_bbox_labels_before_poly_labels (w h : ℕ) (labs : List Lab)
    (tb : List ((ℚ × ℚ × ℚ × ℚ) × ℤ)) (tk : List (ℚ × ℚ))
    (sp : List (ℤ × ℕ × ℕ)) (L : List Lab)
    (hL : geoNewLabels w h tb tk sp = some L ∨ photoNewLabels w h tb tk sp = some L) :
    (∃ P, L = tb.map (mkBboxLab w h) ++ P ∧ P.length = sp.length ∧
      save_yolo_label L =
        save_yolo_label (tb.map (mkBboxLab w h)) ++ save_yolo_label P) ∧
    (buildGeometry w h labs).1 = bboxPartOf w h labs ∧
    (buildGeometry w h labs).2.2.length = (polysOf labs).length := by
  refine ⟨?_, ?_, ?_⟩
  · rcases hL with hG | hP
    · rcases hm : mapO (fun cp => geoPolyEntry w h cp.1 cp.2)
          (reconstruct_polygons_from_keypoints tk sp) with _ | poly
      · rw [geoNewLabels, hm] at hG
        exact (Option.noConfusion hG)
      · simp only [geoNewLabels, hm, Option.some.injEq] at hG
        refine ⟨poly, hG.symm, ?_, ?_⟩
        · have hlen := mapO_length _ _ _ hm
          simpa [reconstruct_polygons_from_keypoints] using hlen
        · rw [← hG]
          simp [save_yolo_label, List.filterMap_append]
    · rcases hm : mapO (fun s => photoPolyEntry w h s.1 ((tk.drop s.2.1).take s.2.2)) sp
          with _ | poly
      · rw [photoNewLabels, hm] at hP
        exact (Option.noConfusion hP)
      · simp only [photoNewLabels, hm, Option.some.injEq] at hP
        refine ⟨poly, hP.symm, mapO_length _ _ _ hm, ?_⟩
        · rw [← hP]
          simp [save_yolo_label, List.filterMap_append]
  · simp [buildGeometry_eq]
  · simp [buildGeometry_eq, splitsOfAux_length, scaledPolys]

/-- C10 witness: a source label file with a polygon line before a bbox
line still yields the bbox-derived label first in the geometric output. -/
theorem aug_bbox_labels_before_poly_labels_witness :
    (∃ P, ([⟨7, some (1/5, 1/5, 1/5, 1/5), none⟩,
            ⟨9, none, some [(1/10, 1/5), (3/10, 2/5), (1/2, 3/5)]⟩] : List Lab) =
        ([(((1 : ℚ), (1 : ℚ), (3 : ℚ), (3 : ℚ)), (7 : ℤ))]).map (mkBboxLab 10 10) ++ P ∧
      P.length = [((9 : ℤ), (0 : ℕ), (3 : ℕ))].length ∧
      save_yolo_label [⟨7, some (1/5, 1/5, 1/5, 1/5), none⟩,
            ⟨9, none, some [(1/10, 1/5), (3/10, 2/5), (1/2, 3/5)]⟩] =
        save_yolo_label (([(((1 : ℚ), (1 : ℚ), (3 : ℚ), (3 : ℚ)), (7 : ℤ))]).map (mkBboxLab 10 10)) ++
          save_yolo_label P) ∧
    (buildGeometry 10 10 [⟨9, none, some [(1/10, 1/5), (3/10, 2/5), (1/2, 3/5)]⟩,
        ⟨7, some (1/5, 1/5, 1/5, 1/5), none⟩]).1 =
      bboxPartOf 10 10 [⟨9, none, some [(1/10, 1/5), (3/10, 2/5), (1/2, 3/5)]⟩,
        ⟨7, some (1/5, 1/5, 1/5, 1/5), none⟩] ∧
    (buildGeometry 10 10 [⟨9, none, some [(1/10, 1/5), (3/10, 2/5), (1/2, 3/5)]⟩,
        ⟨7, some (1/5, 1/5, 1/5, 1/5), none⟩]).2.2.length =
      (polysOf [⟨9, none, some [(1/10, 1/5), (3/10, 2/5), (1/2, 3/5)]⟩,
        ⟨7, some (1/5, 1/5, 1/5, 1/5), none⟩]).length := by
  refine aug_bbox_labels_before_poly_labels 10 10 _ _ [(1, 2), (3, 4), (5, 6)] _ _ (Or.inl ?_)
  norm_num [geoNewLabels, mapO, reconstruct_polygons_from_keypoints, geoPolyEntry,
    clamp01, mkBboxLab, bboxFromCorners]

/-- C5: a photometric catalog entry leaves the image dimensions unchanged
(every entry is a pixel-plane operation; the `low_res` resample ends with a
resize back to the original size), and re-emitting the untransformed
geometry against these unchanged dimensions reproduces the original labels
exactly (bboxes denormalized and renormalized round-trip; polygon vertices
round-trip), with the bbox labels listed first. -/
theorem photometric_dims_and_label_roundtrip (a : PhotoAug) (img : Img) (w h : ℕ)
    (hw : 0 < w) (hh : 0 < h) (labs : List Lab) (hwf : ∀ l ∈ labs, WFLab l) :
    ((applyPhotoAug a img).h = img.h ∧ (applyPhotoAug a img).w = img.w) ∧
    photoNewLabels w h (buildGeometry w h labs).1 (buildGeometry w h labs).2.1
        (buildGeometry w h labs).2.2 =
      some (labs.filter (fun l => l.bbox.isSome) ++
            labs.filter (fun l => !l.bbox.isSome)) := by
  constructor
  · cases a <;> simp [applyPhotoAug, low_res, cv2resize]
  · rw [buildGeometry_eq]
    have h3 : ∀ p ∈ scaledPolys w h labs, 3 ≤ p.2.length := by
      intro p hp
      simp only [scaledPolys, List.mem_map] at hp
      obtain ⟨q, hq, rfl⟩ := hp
      simp only [polysOf, List.mem_filterMap] at hq
      obtain ⟨l, hl, hmatch⟩ := hq
      rcases hb : l.bbox with _ | b <;> rw [hb] at hmatch
      · rcases hpl : l.poly with _ | pts <;> rw [hpl] at hmatch
        · simp at hmatch
        · simp only [Option.some.injEq] at hmatch
          obtain ⟨pts2, hpts2, hlen2⟩ : ∃ pts2, l.poly = some pts2 ∧ 3 ≤ pts2.length := by
            rcases hwf l hl with ⟨hbs, _⟩ | ⟨_, hex⟩
            · rw [hb] at hbs; simp at hbs
            · exact hex
          rw [hpl] at hpts2
          simp only [Option.some.injEq] at hpts2
          subst hpts2
          simp [← hmatch, hlen2]
      · simp at hmatch
    have hmapO := photo_polys_aux w h (kpsOf w h labs) (scaledPolys w h labs) []
      (by simp [kpsOf]) h3
    simp only [List.length_nil] at hmapO
    simp only [photoNewLabels, hmapO]
    rw [bboxPart_filter w h hw hh labs hwf]
    have hpoly : (scaledPolys w h labs).map (fun p =>
        (⟨p.1, none, some (p.2.map (fun q => (q.1 / (w : ℚ), q.2 / (h : ℚ))))⟩ : Lab)) =
        (polysOf labs).map (fun p => (⟨p.1, none, some p.2⟩ : Lab)) := by
      simp only [scaledPolys, List.map_map]
      apply List.map_congr_left
      intro p _
      simp [Function.comp, unscale_scale w h hw hh p.2]
    rw [hpoly, polys_filter labs hwf]

/-- C5 witness: one bbox label and one triangle label at dimensions 10×10
under the modelled `low_res` entry. -/
theorem photometric_dims_and_label_roundtrip_witness :
    ((applyPhotoAug (.lowRes (2/5)) ⟨7, 9, fun _ _ => 0⟩).h = (7 : ℕ) ∧
     (applyPhotoAug (.lowRes (2/5)) ⟨7, 9, fun _ _ => 0⟩).w = (9 : ℕ)) ∧
    photoNewLabels 10 10
        (buildGeometry 10 10 [⟨1, some (1/2, 1/2, 1/5, 1/5), none⟩,
          ⟨2, none, some [(0, 0), (1, 0), (1, 1)]⟩]).1
        (buildGeometry 10 10 [⟨1, some (1/2, 1/2, 1/5, 1/5), none⟩,
          ⟨2, none, some [(0, 0), (1, 0), (1, 1)]⟩]).2.1
        (buildGeometry 10 10 [⟨1, some (1/2, 1/2, 1/5, 1/5), none⟩,
          ⟨2, none, some [(0, 0), (1, 0), (1, 1)]⟩]).2.2 =
      some (([⟨1, some (1/2, 1/2, 1/5, 1/5), none⟩,
          ⟨2, none, some [(0, 0), (1, 0), (1, 1)]⟩] : List Lab).filter
            (fun l => l.bbox.isSome) ++
          ([⟨1, some (1/2, 1/2, 1/5, 1/5), none⟩,
          ⟨2, none, some [(0, 0), (1, 0), (1, 1)]⟩] : List Lab).filter
            (fun l => !l.bbox.isSome)) := by
  refine photometric_dims_and_label_roundtrip (.lowRes (2/5)) ⟨7, 9, fun _ _ => 0⟩
    10 10 (by norm_num) (by norm_num) _ ?_
  intro l hl
  simp only [List.mem_cons, List.mem_singleton] at hl
  rcases hl with rfl | hl
  · left
    simp [WFLab]
  · rcases hl with rfl | hl
    · right
      exact ⟨rfl, [(0, 0), (1, 0), (1, 1)], rfl, by norm_num⟩
    · simp at hl


/-- C2 counterexample: an image that decodes successfully but yields no
parsed labels (e.g. its label file is absent) gets only the original copy
plus the 11 photometric outputs — 12 image files and 11 label files, not
`1 + |catalog| = 56` of each — because the geometric loop is guarded by
the presence of boxes or keypoints (line 468), and the label copy by the
label file's existence. -/
theorem aug_unlabeled_image_misses_geo :
    (augPerImage idGeoTf "img" ".jpg" 10 10 false []).map
        (fun r => (r.1.length, r.2.length)) = some (12, 11) ∧
    geo_aug_names.length + photo_aug_names.length = 55 ∧
    (12 : ℕ) ≠ 1 + 55 ∧ (11 : ℕ) ≠ 1 + 55 := by
  refine ⟨?_, by decide, by decide, by decide⟩
  norm_num [augPerImage, buildGeometry, photoOutputs, photo_aug_names, photoNewLabels,
    mapO, idGeoTf]

theorem map_fst_pair {β : Type} (l : List String) (g : String → β) :
    (l.map (fun nm => (nm, g nm))).map Prod.fst = l := by
  induction l with
  | nil => rfl
  | cons x xs ih => simp [ih]

theorem slice_ne_of_bounds {α : Type} (L : List α) (a b : ℕ) (hb : 1 ≤ b)
    (hab : a + b ≤ L.length) : (L.drop a).take b ≠ [] := by
  have hlen : ((L.drop a).take b).length = min b (L.length - a) := by
    simp [List.length_take, List.length_drop]
  intro hcon
  rw [hcon] at hlen
  simp only [List.length_nil] at hlen
  omega

theorem splitsOfAux_bounds : ∀ (ps : List (ℤ × List (ℚ × ℚ))) (ofs : ℕ),
    (∀ p ∈ ps, p.2 ≠ []) → ∀ s ∈ splitsOfAux ofs ps,
      1 ≤ s.2.2 ∧ s.2.1 + s.2.2 ≤ ofs + ((ps.map Prod.snd).flatten).length
  | [], _, _, s, hs => by simp [splitsOfAux] at hs
  | p :: ps, ofs, hne, s, hs => by
    simp only [splitsOfAux, List.mem_cons] at hs
    rcases hs with rfl | hs
    · refine ⟨List.length_pos.mpr (hne p (by simp)), ?_⟩
      simp only [List.map_cons, List.flatten_cons, List.length_append]
      omega
    · obtain ⟨ih1, ih2⟩ := splitsOfAux_bounds ps (ofs + p.2.length)
        (fun q hq => hne q (by simp [hq])) s hs
      refine ⟨ih1, ?_⟩
      simp only [List.map_cons, List.flatten_cons, List.length_append]
      omega

theorem splitsOfAux_mem_fst : ∀ (ps : List (ℤ × List (ℚ × ℚ))) (ofs : ℕ),
    ∀ s ∈ splitsOfAux ofs ps, s.1 ∈ ps.map Prod.fst
  | [], _, s, hs => by simp [splitsOfAux] at hs
  | p :: ps, ofs, s, hs => by
    simp only [splitsOfAux, List.mem_cons] at hs
    rcases hs with rfl | hs
    · simp
    · simp only [List.map_cons, List.mem_cons]
      exact Or.inr (splitsOfAux_mem_fst ps (ofs + p.2.length) s hs)

theorem bboxPartOf_cls_mem (w h : ℕ) (labs : List Lab) :
    ∀ bc ∈ bboxPartOf w h labs, bc.2 ∈ labs.map Lab.cls := by
  intro bc hbc
  simp only [bboxPartOf, List.mem_filterMap] at hbc
  obtain ⟨l, hl, hopt⟩ := hbc
  rcases hb : l.bbox with _ | b <;> rw [hb] at hopt
  · simp at hopt
  · simp only [Option.map_some', Option.some.injEq] at hopt
    rw [← hopt]
    exact List.mem_map_of_mem Lab.cls hl

theorem polysOf_cls_mem (labs : List Lab) :
    ∀ q ∈ polysOf labs, q.1 ∈ labs.map Lab.cls := by
  intro q hq
  simp only [polysOf, List.mem_filterMap] at hq
  obtain ⟨l, hl, hmatch⟩ := hq
  rcases hb : l.bbox with _ | b <;> rw [hb] at hmatch
  · rcases hp : l.poly with _ | pts <;> rw [hp] at hmatch
    · simp at hmatch
    · simp only [Option.some.injEq] at hmatch
      rw [← hmatch]
      exact List.mem_map_of_mem Lab.cls hl
  · simp at hmatch

theorem scaledPolys_ne_empty (w h : ℕ) (labs : List Lab)
    (hpoly : ∀ l ∈ labs, ∀ pts, l.poly = some pts → pts ≠ []) :
    ∀ p ∈ scaledPolys w h labs, p.2 ≠ [] := by
  intro p hp
  simp only [scaledPolys, List.mem_map] at hp
  obtain ⟨q, hq, rfl⟩ := hp
  simp only [polysOf, List.mem_filterMap] at hq
  obtain ⟨l, hl, hmatch⟩ := hq
  rcases hb : l.bbox with _ | b <;> rw [hb] at hmatch
  · rcases hpl : l.poly with _ | pts <;> rw [hpl] at hmatch
    · simp at hmatch
    · simp only [Option.some.injEq] at hmatch
      subst hmatch
      simpa using hpoly l hl pts hpl
  · simp at hmatch

theorem geoPolyEntry_getD_cls (w h : ℕ) (cls : ℤ) (pts : List (ℚ × ℚ))
    (hne : pts ≠ []) :
    geoPolyEntry w h cls pts =
      some ((geoPolyEntry w h cls pts).getD ⟨0, none, none⟩) ∧
    ((geoPolyEntry w h cls pts).getD ⟨0, none, none⟩).cls = cls := by
  simp only [geoPolyEntry]
  by_cases h3 :
      3 ≤ (pts.map (fun p => (clamp01 (p.1 / (w : ℚ)), clamp01 (p.2 / (h : ℚ))))).length
  · rw [if_pos h3]
    simp
  · rw [if_neg h3]
    obtain ⟨bb, hbb⟩ := polygon_to_bbox_norm_isSome
      ((pts.map (fun p => (clamp01 (p.1 / (w : ℚ)), clamp01 (p.2 / (h : ℚ))))).map
        (fun p => (p.1 * (w : ℚ), p.2 * (h : ℚ)))) w h (by simpa using hne)
    rw [hbb]
    simp

theorem photoPolyEntry_getD_cls (w h : ℕ) (cls : ℤ) (pts : List (ℚ × ℚ))
    (hne : pts ≠ []) :
    photoPolyEntry w h cls pts =
      some ((photoPolyEntry w h cls pts).getD ⟨0, none, none⟩) ∧
    ((photoPolyEntry w h cls pts).getD ⟨0, none, none⟩).cls = cls := by
  simp only [photoPolyEntry]
  by_cases h3 : 3 ≤ (pts.map (fun p => (p.1 / (w : ℚ), p.2 / (h : ℚ)))).length
  · rw [if_pos h3]
    simp
  · rw [if_neg h3]
    obtain ⟨bb, hbb⟩ := polygon_to_bbox_norm_isSome pts w h hne
    rw [hbb]
    simp

/-- C2 amended: for every image that decodes successfully and whose parsed
labels contain no empty polygon (a malformed or empty-polygon label line
instead aborts the whole augmentation run), the per-image body copies the
original image, copies its label file when it exists, applies every
photometric entry exactly once, and applies every geometric entry exactly
once provided at least one box or keypoint was parsed; each applied entry
writes one derived image file and one derived label file named
`<stem>_<entry>`, and every generated label's class index comes from the
source labels.  An image with one bbox label therefore yields
`1 + |catalog|` files of each kind, all of the source class (see the
witness). -/
theorem aug_full_catalog_outputs (gtf : String → GeoTf)
    (hcls : ∀ nm bbs, ∀ bc ∈ (gtf nm).boxTf bbs, bc.2 ∈ bbs.map Prod.snd)
    (stem ext : String) (w h : ℕ) (lblExists : Bool) (labs : List Lab)
    (hpoly : ∀ l ∈ labs, ∀ pts, l.poly = some pts → pts ≠ []) :
    ∃ gen : List (String × List Lab),
      augPerImage gtf stem ext w h lblExists labs =
        some ([stem ++ ext] ++ gen.map (fun e => stem ++ "_" ++ e.1 ++ ".jpg"),
              (if lblExists then [(stem ++ ".txt", LblFile.copied)] else []) ++
                gen.map (fun e => (stem ++ "_" ++ e.1 ++ ".txt", LblFile.generated e.2))) ∧
      gen.map Prod.fst =
        (if (buildGeometry w h labs).1 ≠ [] ∨ (buildGeometry w h labs).2.1 ≠ []
          then geo_aug_names else []) ++ photo_aug_names ∧
      ∀ e ∈ gen, ∀ lab ∈ e.2, lab.cls ∈ labs.map Lab.cls := by
  have hps := scaledPolys_ne_empty w h labs hpoly
  have hbounds := splitsOfAux_bounds (scaledPolys w h labs) 0 hps
  have hKlen : (kpsOf w h labs).length =
      ((scaledPolys w h labs).map Prod.snd).flatten.length := rfl
  have hsliceP : ∀ s ∈ splitsOfAux 0 (scaledPolys w h labs),
      ((kpsOf w h labs).drop s.2.1).take s.2.2 ≠ [] := by
    intro s hs
    obtain ⟨h1, h2⟩ := hbounds s hs
    refine slice_ne_of_bounds _ _ _ h1 ?_
    rw [hKlen]
    omega
  have hsliceG : ∀ nm, ∀ s ∈ splitsOfAux 0 (scaledPolys w h labs),
      (((kpsOf w h labs).map (gtf nm).ptTf).drop s.2.1).take s.2.2 ≠ [] := by
    intro nm s hs
    obtain ⟨h1, h2⟩ := hbounds s hs
    refine slice_ne_of_bounds _ _ _ h1 ?_
    rw [List.length_map, hKlen]
    omega
  have hgeoE : ∀ nm, geoNewLabels w h ((gtf nm).boxTf (bboxPartOf w h labs))
      ((kpsOf w h labs).map (gtf nm).ptTf) (splitsOfAux 0 (scaledPolys w h labs)) =
      some (((gtf nm).boxTf (bboxPartOf w h labs)).map (mkBboxLab w h) ++
        (splitsOfAux 0 (scaledPolys w h labs)).map (fun s =>
          (geoPolyEntry w h s.1
            ((((kpsOf w h labs).map (gtf nm).ptTf).drop s.2.1).take s.2.2)).getD
            ⟨0, none, none⟩)) := by
    intro nm
    have hmap : mapO (fun cp => geoPolyEntry w h cp.1 cp.2)
        (reconstruct_polygons_from_keypoints ((kpsOf w h labs).map (gtf nm).ptTf)
          (splitsOfAux 0 (scaledPolys w h labs))) =
        some ((splitsOfAux 0 (scaledPolys w h labs)).map (fun s =>
          (geoPolyEntry w h s.1
            ((((kpsOf w h labs).map (gtf nm).ptTf).drop s.2.1).take s.2.2)).getD
            ⟨0, none, none⟩)) := by
      rw [reconstruct_polygons_from_keypoints, mapO_map]
      exact mapO_eq_map _ _ _
        (fun s hs => (geoPolyEntry_getD_cls w h s.1 _ (hsliceG nm s hs)).1)
    rw [geoNewLabels, hmap]
  have hphotoE : photoNewLabels w h (bboxPartOf w h labs) (kpsOf w h labs)
      (splitsOfAux 0 (scaledPolys w h labs)) =
      some ((bboxPartOf w h labs).map (mkBboxLab w h) ++
        (splitsOfAux 0 (scaledPolys w h labs)).map (fun s =>
          (photoPolyEntry w h s.1 (((kpsOf w h labs).drop s.2.1).take s.2.2)).getD
            ⟨0, none, none⟩)) := by
    have hmap : mapO
        (fun s => photoPolyEntry w h s.1 (((kpsOf w h labs).drop s.2.1).take s.2.2))
        (splitsOfAux 0 (scaledPolys w h labs)) =
        some ((splitsOfAux 0 (scaledPolys w h labs)).map (fun s =>
          (photoPolyEntry w h s.1 (((kpsOf w h labs).drop s.2.1).take s.2.2)).getD
            ⟨0, none, none⟩)) :=
      mapO_eq_map _ _ _
        (fun s hs => (photoPolyEntry_getD_cls w h s.1 _ (hsliceP s hs)).1)
    rw [photoNewLabels, hmap]
  have hclsGeo : ∀ nm, ∀ lab ∈ ((gtf nm).boxTf (bboxPartOf w h labs)).map (mkBboxLab w h) ++
      (splitsOfAux 0 (scaledPolys w h labs)).map (fun s =>
        (geoPolyEntry w h s.1
          ((((kpsOf w h labs).map (gtf nm).ptTf).drop s.2.1).take s.2.2)).getD
          ⟨0, none, none⟩), lab.cls ∈ labs.map Lab.cls := by
    intro nm lab hlab
    rcases List.mem_append.mp hlab with hlab | hlab
    · simp only [List.mem_map] at hlab
      obtain ⟨bc, hbc, rfl⟩ := hlab
      have hbc2 := hcls nm (bboxPartOf w h labs) bc hbc
      simp only [List.mem_map] at hbc2
      obtain ⟨bc2, hbc2m, hEq⟩ := hbc2
      have hsrc := bboxPartOf_cls_mem w h labs bc2 hbc2m
      rw [hEq] at hsrc
      simpa [mkBboxLab] using hsrc
    · simp only [List.mem_map] at hlab
      obtain ⟨s, hs, rfl⟩ := hlab
      rw [(geoPolyEntry_getD_cls w h s.1 _ (hsliceG nm s hs)).2]
      have hfst := splitsOfAux_mem_fst (scaledPolys w h labs) 0 s hs
      simp only [List.mem_map] at hfst
      obtain ⟨q, hq, hEq⟩ := hfst
      simp only [scaledPolys, List.mem_map] at hq
      obtain ⟨q2, hq2, rfl⟩ := hq
      rw [← hEq]
      exact polysOf_cls_mem labs q2 hq2
  have hclsPhoto : ∀ lab ∈ (bboxPartOf w h labs).map (mkBboxLab w h) ++
      (splitsOfAux 0 (scaledPolys w h labs)).map (fun s =>
        (photoPolyEntry w h s.1 (((kpsOf w h labs).drop s.2.1).take s.2.2)).getD
          ⟨0, none, none⟩), lab.cls ∈ labs.map Lab.cls := by
    intro lab hlab
    rcases List.mem_append.mp hlab with hlab | hlab
    · simp only [List.mem_map] at hlab
      obtain ⟨bc, hbc, rfl⟩ := hlab
      simpa [mkBboxLab] using bboxPartOf_cls_mem w h labs bc hbc
    · simp only [List.mem_map] at hlab
      obtain ⟨s, hs, rfl⟩ := hlab
      rw [(photoPolyEntry_getD_cls w h s.1 _ (hsliceP s hs)).2]
      have hfst := splitsOfAux_mem_fst (scaledPolys w h labs) 0 s hs
      simp only [List.mem_map] at hfst
      obtain ⟨q, hq, hEq⟩ := hfst
      simp only [scaledPolys, List.mem_map] at hq
      obtain ⟨q2, hq2, rfl⟩ := hq
      rw [← hEq]
      exact polysOf_cls_mem labs q2 hq2
  by_cases hcond : bboxPartOf w h labs ≠ [] ∨ kpsOf w h labs ≠ []
  · refine ⟨geo_aug_names.map (fun nm =>
        (nm, ((gtf nm).boxTf (bboxPartOf w h labs)).map (mkBboxLab w h) ++
          (splitsOfAux 0 (scaledPolys w h labs)).map (fun s =>
            (geoPolyEntry w h s.1
              ((((kpsOf w h labs).map (gtf nm).ptTf).drop s.2.1).take s.2.2)).getD
              ⟨0, none, none⟩))) ++
      photo_aug_names.map (fun nm =>
        (nm, (bboxPartOf w h labs).map (mkBboxLab w h) ++
          (splitsOfAux 0 (scaledPolys w h labs)).map (fun s =>
            (photoPolyEntry w h s.1 (((kpsOf w h labs).drop s.2.1).take s.2.2)).getD
              ⟨0, none, none⟩))), ?_, ?_, ?_⟩
    · have hmemsome : ∀ x ∈
          geoOutputs gtf w h (bboxPartOf w h labs) (kpsOf w h labs)
            (splitsOfAux 0 (scaledPolys w h labs)) ++
          photoOutputs w h (bboxPartOf w h labs) (kpsOf w h labs)
            (splitsOfAux 0 (scaledPolys w h labs)),
          x.2.map (fun L => (x.1, L)) = some (x.1, x.2.getD []) := by
        intro x hx
        rcases List.mem_append.mp hx with hx | hx
        · simp only [geoOutputs, List.mem_map] at hx
          obtain ⟨nm, _, rfl⟩ := hx
          simp [hgeoE nm]
        · simp only [photoOutputs, List.mem_map] at hx
          obtain ⟨nm, _, rfl⟩ := hx
          simp [hphotoE]
      have hmapO := mapO_eq_map
        (fun (o : String × Option (List Lab)) => o.2.map (fun L => (o.1, L)))
        (fun (o : String × Option (List Lab)) => (o.1, o.2.getD [])) _ hmemsome
      have hgenmap : (geoOutputs gtf w h (bboxPartOf w h labs) (kpsOf w h labs)
            (splitsOfAux 0 (scaledPolys w h labs)) ++
          photoOutputs w h (bboxPartOf w h labs) (kpsOf w h labs)
            (splitsOfAux 0 (scaledPolys w h labs))).map
            (fun o => (o.1, o.2.getD [])) =
          geo_aug_names.map (fun nm =>
            (nm, ((gtf nm).boxTf (bboxPartOf w h labs)).map (mkBboxLab w h) ++
              (splitsOfAux 0 (scaledPolys w h labs)).map (fun s =>
                (geoPolyEntry w h s.1
                  ((((kpsOf w h labs).map (gtf nm).ptTf).drop s.2.1).take s.2.2)).getD
                  ⟨0, none, none⟩))) ++
          photo_aug_names.map (fun nm =>
            (nm, (bboxPartOf w h labs).map (mkBboxLab w h) ++
              (splitsOfAux 0 (scaledPolys w h labs)).map (fun s =>
                (photoPolyEntry w h s.1
                  (((kpsOf w h labs).drop s.2.1).take s.2.2)).getD
                  ⟨0, none, none⟩))) := by
        rw [List.map_append]
        congr 1
        all_goals
          first
          | (simp only [geoOutputs, List.map_map]
             apply List.map_congr_left
             intro nm _
             simp [Function.comp, hgeoE nm])
          | (simp only [photoOutputs, List.map_map]
             apply List.map_congr_left
             intro nm _
             simp [Function.comp, hphotoE])
      rw [hgenmap] at hmapO
      simp only [augPerImage, buildGeometry_eq]
      rw [if_pos hcond]
      rw [hmapO]
    · simp only [buildGeometry_eq]
      rw [if_pos hcond, List.map_append, map_fst_pair, map_fst_pair]
    · intro e he lab hlab
      rcases List.mem_append.mp he with he | he
      · simp only [List.mem_map] at he
        obtain ⟨nm, _, rfl⟩ := he
        exact hclsGeo nm lab hlab
      · simp only [List.mem_map] at he
        obtain ⟨nm, _, rfl⟩ := he
        exact hclsPhoto lab hlab
  · refine ⟨photo_aug_names.map (fun nm =>
        (nm, (bboxPartOf w h labs).map (mkBboxLab w h) ++
          (splitsOfAux 0 (scaledPolys w h labs)).map (fun s =>
            (photoPolyEntry w h s.1 (((kpsOf w h labs).drop s.2.1).take s.2.2)).getD
              ⟨0, none, none⟩))), ?_, ?_, ?_⟩
    · have hmemsome : ∀ x ∈
          photoOutputs w h (bboxPartOf w h labs) (kpsOf w h labs)
            (splitsOfAux 0 (scaledPolys w h labs)),
          x.2.map (fun L => (x.1, L)) = some (x.1, x.2.getD []) := by
        intro x hx
        simp only [photoOutputs, List.mem_map] at hx
        obtain ⟨nm, _, rfl⟩ := hx
        simp [hphotoE]
      have hmapO := mapO_eq_map
        (fun (o : String × Option (List Lab)) => o.2.map (fun L => (o.1, L)))
        (fun (o : String × Option (List Lab)) => (o.1, o.2.getD [])) _ hmemsome
      have hgenmap : (photoOutputs w h (bboxPartOf w h labs) (kpsOf w h labs)
            (splitsOfAux 0 (scaledPolys w h labs))).map
            (fun o => (o.1, o.2.getD [])) =
          photo_aug_names.map (fun nm =>
            (nm, (bboxPartOf w h labs).map (mkBboxLab w h) ++
              (splitsOfAux 0 (scaledPolys w h labs)).map (fun s =>
                (photoPolyEntry w h s.1
                  (((kpsOf w h labs).drop s.2.1).take s.2.2)).getD
                  ⟨0, none, none⟩))) := by
        simp only [photoOutputs, List.map_map]
        apply List.map_congr_left
        intro nm _
        simp [Function.comp, hphotoE]
      rw [hgenmap] at hmapO
      simp only [augPerImage, buildGeometry_eq]
      rw [if_neg hcond]
      simp only [List.nil_append]
      rw [hmapO]
    · simp only [buildGeometry_eq]
      rw [if_neg hcond, List.nil_append, map_fst_pair]
    · intro e he lab hlab
      simp only [List.mem_map] at he
      obtain ⟨nm, _, rfl⟩ := he
      exact hclsPhoto lab hlab

/-- C2 amended, witness: identity transform interface, one bbox label of
class 3 — the catalog applies in full (44 geometric + 11 photometric
derived pairs plus the copied originals), every label of class 3. -/
theorem aug_full_catalog_outputs_witness :
    ∃ gen : List (String × List Lab),
      augPerImage idGeoTf "img" ".jpg" 10 10 true [⟨3, some (1/2, 1/2, 1/5, 1/5), none⟩] =
        some (["img" ++ ".jpg"] ++ gen.map (fun e => "img" ++ "_" ++ e.1 ++ ".jpg"),
              [("img" ++ ".txt", LblFile.copied)] ++
                gen.map (fun e => ("img" ++ "_" ++ e.1 ++ ".txt", LblFile.generated e.2))) ∧
      gen.map Prod.fst = geo_aug_names ++ photo_aug_names ∧
      gen.length = geo_aug_names.length + photo_aug_names.length ∧
      ∀ e ∈ gen, ∀ lab ∈ e.2, lab.cls = 3 := by
  obtain ⟨gen, h1, h2, h3⟩ := aug_full_catalog_outputs idGeoTf
    (fun _ _ _ hbc => List.mem_map_of_mem Prod.snd hbc)
    "img" ".jpg" 10 10 true [⟨3, some (1/2, 1/2, 1/5, 1/5), none⟩]
    (by
      intro l hl pts hp
      simp only [List.mem_singleton] at hl
      subst hl
      simp at hp)
  have hcondeval : ((buildGeometry 10 10 [⟨3, some (1/2, 1/2, 1/5, 1/5), none⟩]).1 ≠ [] ∨
      (buildGeometry 10 10 [⟨3, some (1/2, 1/2, 1/5, 1/5), none⟩]).2.1 ≠ []) := by
    left
    simp [buildGeometry, geomStep]
  rw [if_pos hcondeval] at h2
  refine ⟨gen, by simpa using h1, h2, ?_, ?_⟩
  · have hlen := congrArg List.length h2
    simpa using hlen
  · intro e he lab hlab
    simpa using h3 e he lab hlab


end VMT
